import Mathlib

/-!
Verification of the non-empty vector library (src/lib.rs).

The library defines a wrapper type NonEmpty<T>(Vec<T>) with two
constructors:

  from_vec  : Vec<T>  -> Option<NonEmpty<T>>   (moves the vector in)
  from_slice: &[T]    -> Option<NonEmpty<T>>   (clones the slice, T: Clone)

Both return None exactly when the input is empty.

Two embeddings are developed below.

1. A pure, value-level embedding: a Vec<T> (and a slice &[T]) is a
   List α, and NonEmpty α wraps such a list.  This captures all
   functional behaviour: emptiness checks, lengths, element contents.

2. A heap embedding for the allocation-level statements of the spec
   (ownership transfer vs. duplication, no mutation of the input view):
   a heap is a list of allocations, each allocation is a list of
   elements, and a Vec or a slice is an address (an index) into the
   heap.  from_vec moves its argument, so it allocates nothing and the
   result is backed by the same address; from_slice performs one new
   allocation holding an element-by-element copy of the viewed block.
-/

namespace NonEmptyLib

/-- The pure model of Rust Vec<T>: the sequence of its elements. -/
abbrev Vec (α : Type) : Type := List α

/-- A non-empty vector, as in the source: a struct wrapping one Vec.
The single (private, positional) field of NonEmpty<T>(Vec<T>) is named
toVec here. -/
structure NonEmpty (α : Type) : Type where
  toVec : Vec α
deriving DecidableEq, Repr

/-- Model of slice.to_owned() for T: Clone — a new vector whose element
at index i is a clone of the slice element at index i.  Cloning a pure
value yields an equal value, so each element maps to itself; the map
keeps the element-by-element, positional shape of the source operation. -/
def to_owned (slice : List α) : Vec α :=
  slice.map (fun a => a)

/-- NonEmpty::from_vec, translated from the source:
if vec.is_empty() { None } else { Some(NonEmpty(vec)) }. -/
def from_vec (vec : Vec α) : Option (NonEmpty α) :=
  if vec.isEmpty then none else some (NonEmpty.mk vec)

/-- NonEmpty::from_slice, translated from the source:
if slice.is_empty() { None } else { Some(NonEmpty(slice.to_owned())) }. -/
def from_slice (slice : List α) : Option (NonEmpty α) :=
  if slice.isEmpty then none else some (NonEmpty.mk (to_owned slice))

/-! ### Heap embedding for the allocation-level claims -/

/-- An address of an allocation in the heap. -/
abbrev Addr : Type := Nat

/-- A heap: the list of live allocations, addressed by position.  Each
allocation is the block of elements it holds. -/
abbrev Heap (α : Type) : Type := List (List α)

/-- The contents of the allocation at address a (empty block if a is
not a live address). -/
def heapGet (h : Heap α) (a : Addr) : List α :=
  h.getD a []

/-- Overwrite the contents of the allocation at address a (models a
mutation of that storage). -/
def heapSet (h : Heap α) (a : Addr) (l : List α) : Heap α :=
  h.set a l

/-- NonEmpty::from_vec at the heap level.  The argument vector is moved
into the wrapper: no allocation or copy happens on either branch, so
the heap is returned unchanged, and on success the NonEmpty value is
backed by the very address the input vector was backed by. -/
def from_vec_heap (h : Heap α) (v : Addr) : Heap α × Option Addr :=
  if (heapGet h v).isEmpty then (h, none) else (h, some v)

/-- NonEmpty::from_slice at the heap level.  slice.to_owned() performs
one new allocation sized to the view and copies each element into it in
order; the viewed allocation itself is only read. -/
def from_slice_heap (h : Heap α) (s : Addr) : Heap α × Option Addr :=
  if (heapGet h s).isEmpty then (h, none)
  else (h ++ [to_owned (heapGet h s)], some h.length)

/-! ### Basic lemmas -/

theorem to_owned_eq (l : List α) : to_owned l = l := by
  simp [to_owned]

theorem from_vec_eq_none_iff (vec : Vec α) : from_vec vec = none ↔ vec = [] := by
  unfold from_vec
  rcases vec with _ | ⟨a, t⟩ <;> simp

theorem from_slice_eq_none_iff (slice : List α) :
    from_slice slice = none ↔ slice = [] := by
  unfold from_slice
  rcases slice with _ | ⟨a, t⟩ <;> simp

theorem from_vec_cons (a : α) (t : List α) :
    from_vec (a :: t) = some (NonEmpty.mk (a :: t)) := by
  simp [from_vec]

theorem from_slice_cons (a : α) (t : List α) :
    from_slice (a :: t) = some (NonEmpty.mk (a :: t)) := by
  simp [from_slice, to_owned_eq]

/-! ### Claims -/

/-- C1: for every contiguous input of length at least 1, both
constructors succeed and return a value whose length equals the input
length and whose element at every index i equals the input element at
index i (order preserved; duplication in the borrowed path is
positional). -/
theorem constructors_preserve_length_and_elements
    (l : List α) (hpos : 1 ≤ l.length) :
    (∃ ne : NonEmpty α, from_vec l = some ne ∧
        ne.toVec.length = l.length ∧ ∀ i : Nat, ne.toVec[i]? = l[i]?) ∧
    (∃ ne : NonEmpty α, from_slice l = some ne ∧
        ne.toVec.length = l.length ∧ ∀ i : Nat, ne.toVec[i]? = l[i]?) := by
  rcases l with _ | ⟨a, t⟩
  · simp at hpos
  · exact ⟨⟨NonEmpty.mk (a :: t), from_vec_cons a t, rfl, fun i => rfl⟩,
      ⟨NonEmpty.mk (a :: t), from_slice_cons a t, rfl, fun i => rfl⟩⟩

/-- C1 witness: the theorem instantiated at the concrete input
[10, 20, 30]. -/
theorem constructors_preserve_length_and_elements_witness :
    (∃ ne : NonEmpty Nat, from_vec [10, 20, 30] = some ne ∧
        ne.toVec.length = ([10, 20, 30] : List Nat).length ∧
        ∀ i : Nat, ne.toVec[i]? = ([10, 20, 30] : List Nat)[i]?) ∧
    (∃ ne : NonEmpty Nat, from_slice [10, 20, 30] = some ne ∧
        ne.toVec.length = ([10, 20, 30] : List Nat).length ∧
        ∀ i : Nat, ne.toVec[i]? = ([10, 20, 30] : List Nat)[i]?) :=
  constructors_preserve_length_and_elements [10, 20, 30] (by decide)

/-- C2: for every contiguous input of length 0, both constructors
return none (the absent-value result). -/
theorem empty_input_yields_none (l : List α) (h : l.length = 0) :
    from_vec l = none ∧ from_slice l = none := by
  have hl : l = [] := List.length_eq_zero.mp h
  subst hl
  exact ⟨(from_vec_eq_none_iff []).mpr rfl, (from_slice_eq_none_iff []).mpr rfl⟩

/-- C2 witness: the theorem instantiated at the empty list of naturals. -/
theorem empty_input_yields_none_witness :
    from_vec ([] : List Nat) = none ∧ from_slice ([] : List Nat) = none :=
  empty_input_yields_none ([] : List Nat) rfl

/-- C3: every NonEmpty value produced by either public constructor has
length at least 1; the zero-length case is never represented. -/
theorem constructed_value_is_nonempty (l : List α) (ne : NonEmpty α)
    (h : from_vec l = some ne ∨ from_slice l = some ne) :
    1 ≤ ne.toVec.length := by
  rcases h with h | h
  · unfold from_vec at h
    rcases l with _ | ⟨a, t⟩
    · simp at h
    · simp at h
      subst h
      simp
  · unfold from_slice at h
    rcases l with _ | ⟨a, t⟩
    · simp at h
    · simp at h
      subst h
      simp [to_owned_eq]

/-- C3 witness: the theorem instantiated with from_vec on [5]. -/
theorem constructed_value_is_nonempty_witness :
    1 ≤ (NonEmpty.mk [5] : NonEmpty Nat).toVec.length :=
  constructed_value_is_nonempty [5] (NonEmpty.mk [5]) (Or.inl rfl)

/-- C4: both constructors are total functions: on every input (empty or
not) each returns either some value satisfying the non-emptiness
invariant, or none; no other outcome exists. -/
theorem constructors_total (l : List α) :
    (from_vec l = none ∨
      ∃ ne : NonEmpty α, from_vec l = some ne ∧ 1 ≤ ne.toVec.length) ∧
    (from_slice l = none ∨
      ∃ ne : NonEmpty α, from_slice l = some ne ∧ 1 ≤ ne.toVec.length) := by
  rcases l with _ | ⟨a, t⟩
  · exact ⟨Or.inl ((from_vec_eq_none_iff []).mpr rfl),
      Or.inl ((from_slice_eq_none_iff []).mpr rfl)⟩
  · refine ⟨Or.inr ⟨NonEmpty.mk (a :: t), from_vec_cons a t, by simp⟩,
      Or.inr ⟨NonEmpty.mk (a :: t), from_slice_cons a t, by simp⟩⟩

/-- C5: in the heap model, from_vec on a non-empty vector at a live
address performs no allocation and no copy: the heap is unchanged and
the resulting NonEmpty is backed by the same address as the input
vector (the allocation is transferred, not duplicated). -/
theorem from_vec_transfers_allocation (h : Heap α) (v : Addr)
    (hlive : v < h.length) (hne : heapGet h v ≠ []) :
    from_vec_heap h v = (h, some v) := by
  unfold from_vec_heap
  simp [hne]

/-- C5 witness: the theorem instantiated at the one-allocation heap
holding the block [7]. -/
theorem from_vec_transfers_allocation_witness :
    from_vec_heap ([[7]] : Heap Nat) 0 = ([[7]], some 0) :=
  from_vec_transfers_allocation [[7]] 0 (by decide) (by decide)

/-- C6: in the heap model, from_slice on a non-empty view at a live
address succeeds with a freshly allocated address, distinct from the
input address, holding an element-by-element duplicate; overwriting the
original storage afterwards leaves the constructed value's elements
unchanged. -/
theorem from_slice_duplicates (h : Heap α) (s : Addr)
    (hlive : s < h.length) (hne : heapGet h s ≠ []) :
    from_slice_heap h s = (h ++ [to_owned (heapGet h s)], some h.length) ∧
    h.length ≠ s ∧
    ∀ l2 : List α,
      heapGet (heapSet (h ++ [to_owned (heapGet h s)]) s l2) h.length
        = heapGet h s := by
  refine ⟨?_, (Nat.ne_of_lt hlive).symm, ?_⟩
  · unfold from_slice_heap
    simp [hne]
  · intro l2
    unfold heapGet heapSet
    rw [List.getD_eq_getElem?_getD, List.getD_eq_getElem?_getD,
      List.getElem?_set_ne (Nat.ne_of_lt hlive),
      List.getElem?_append_right (le_refl h.length)]
    simp [to_owned_eq, Nat.sub_self]

/-- C6 witness: the theorem instantiated at the one-allocation heap
holding the block [1, 2], then mutating the source block to [9, 9]. -/
theorem from_slice_duplicates_witness :
    (from_slice_heap ([[1, 2]] : Heap Nat) 0
        = ([[1, 2]] ++ [to_owned (heapGet [[1, 2]] 0)], some 1) ∧
      ([[1, 2]] : Heap Nat).length ≠ 0 ∧
      ∀ l2 : List Nat,
        heapGet (heapSet ([[1, 2]] ++ [to_owned (heapGet [[1, 2]] 0)]) 0 l2) 1
          = heapGet [[1, 2]] 0) :=
  from_slice_duplicates [[1, 2]] 0 (by decide) (by decide)

/-- C7: in the heap model, from_slice never mutates the input view: the
contents of the viewed allocation are the same in the resulting heap as
before the call, whether or not construction succeeds. -/
theorem from_slice_reads_only (h : Heap α) (s : Addr) (hlive : s < h.length) :
    heapGet (from_slice_heap h s).1 s = heapGet h s := by
  unfold from_slice_heap
  by_cases he : (heapGet h s).isEmpty
  · rw [if_pos he]
  · rw [if_neg he]
    show heapGet (h ++ [to_owned (heapGet h s)]) s = heapGet h s
    unfold heapGet
    rw [List.getD_eq_getElem?_getD, List.getD_eq_getElem?_getD,
      List.getElem?_append_left hlive]

/-- C7 witness: the theorem instantiated at the one-allocation heap
holding the block [3]. -/
theorem from_slice_reads_only_witness :
    heapGet (from_slice_heap ([[3]] : Heap Nat) 0).1 0 = heapGet [[3]] 0 :=
  from_slice_reads_only [[3]] 0 (by decide)

/-- C8: inspection is idempotent and construction is deterministic:
reading the wrapped contents of the same constructed value twice gives
identical results, and running either constructor twice on equal inputs
gives equal results. -/
theorem inspection_idempotent_construction_deterministic
    (l1 l2 : List α) (heq : l1 = l2) :
    (∀ ne : NonEmpty α, (from_vec l1 = some ne ∨ from_slice l1 = some ne) →
        ne.toVec = ne.toVec) ∧
    from_vec l1 = from_vec l2 ∧ from_slice l1 = from_slice l2 := by
  subst heq
  exact ⟨fun ne _ => rfl, rfl, rfl⟩

/-- C8 witness: the theorem instantiated at two copies of [4, 4]. -/
theorem inspection_idempotent_construction_deterministic_witness :
    (∀ ne : NonEmpty Nat,
        (from_vec [4, 4] = some ne ∨ from_slice [4, 4] = some ne) →
        ne.toVec = ne.toVec) ∧
    from_vec ([4, 4] : List Nat) = from_vec [4, 4] ∧
    from_slice ([4, 4] : List Nat) = from_slice [4, 4] :=
  inspection_idempotent_construction_deterministic [4, 4] [4, 4] rfl

/-- C9: the concrete scenarios of the spec: from_vec [7] yields a value
of length 1 containing 7; from_vec [1, 2, 3] yields a value of length 3
with content [1, 2, 3] in order; from_slice on a view over [a, b]
yields a value of length 2 with that content; from_vec and from_slice
on empty inputs yield none. -/
theorem concrete_scenarios :
    (from_vec [7] = some (NonEmpty.mk [7]) ∧
      (NonEmpty.mk [7] : NonEmpty Nat).toVec.length = 1) ∧
    (from_vec [1, 2, 3] = some (NonEmpty.mk [1, 2, 3]) ∧
      (NonEmpty.mk [1, 2, 3] : NonEmpty Nat).toVec.length = 3) ∧
    (from_slice (["a", "b"] : List String)
        = some (NonEmpty.mk ["a", "b"]) ∧
      (NonEmpty.mk (["a", "b"] : List String)).toVec.length = 2) ∧
    from_vec ([] : List Nat) = none ∧
    from_slice ([] : List String) = none := by
  refine ⟨⟨?_, rfl⟩, ⟨?_, rfl⟩, ⟨?_, rfl⟩, rfl, rfl⟩ <;>
    simp [from_vec, from_slice, to_owned]

/-- C10: the two constructors agree up to ownership mode: from_slice
returns none exactly when from_vec on a vector with the same elements
returns none, and when both succeed the results hold equal element
sequences. -/
theorem from_slice_agrees_with_from_vec (l : List α) :
    (from_slice l = none ↔ from_vec l = none) ∧
    ∀ a b : NonEmpty α, from_slice l = some a → from_vec l = some b →
      a.toVec = b.toVec := by
  constructor
  · rw [from_slice_eq_none_iff, from_vec_eq_none_iff]
  · intro a b ha hb
    rcases l with _ | ⟨x, t⟩
    · simp [from_slice] at ha
    · rw [from_slice_cons] at ha
      rw [from_vec_cons] at hb
      rw [Option.some_inj] at ha hb
      rw [← ha, ← hb]

end NonEmptyLib
